import Mathlib

/-!
Verification of the response-shaping contract of `src/backend/app.py`, a FastAPI
service exposing `/tokenize`, `/next_token`, `/residual_stream`, `/attention`,
`/embeddings` and `/health` over a pretrained GPT-2 model.

The model, tokenizer, `torch.softmax`, `torch.norm` and the sklearn PCA solver
are external dependencies of the repository; they are represented by a `Session`
record of abstract per-request data (token ids, raw token strings, final-position
logits, softmax output, hidden states, attention tensors) plus small definitions
capturing their documented contracts.  The endpoint handlers themselves — the
code of the repository — are translated statement by statement.

Conventions:
* the global `tokenizer`/`model` pair that may have failed to load is an
  `Option Session` argument (`none` = the load `except` branch fired);
* a per-request exception raised inside an endpoint's `try` block is modelled by
  a Boolean argument `exn` (the broad `except` handlers catch everything);
* batch dimensions of size 1 (`[0]` / `.squeeze(0)` indexing) are elided: the
  session hands out already-squeezed per-request tensors as nested lists;
* tensor entries are rationals, except residual-stream norms which are real
  (`torch.norm` is a Euclidean norm, hence a square root).
-/

/-- Abstract per-request data supplied by the external tokenizer, model,
`torch.softmax` and the PCA solver.  `encode text` is the token-id sequence
(`tokenizer(text)["input_ids"][0]`, same ids as `tokenizer.encode(text)`);
`idToToken` is elementwise `convert_ids_to_tokens`; `decode1 i` is
`tokenizer.decode([i])`; `lastLogits text` is `logits[0, -1, :]`;
`softmax` is `torch.softmax` on a vector; `hiddenStates text` is
`outputs.hidden_states` squeezed to layers × tokens × hidden-dim;
`attentions text` is `outputs.attentions` squeezed to
layers × heads × tokens × tokens; `pcaProj` is the PCA solver's projection,
abstracted (its numerical content is out of scope). -/
structure Session where
  encode : String → List Nat
  idToToken : Nat → String
  decode1 : Nat → String
  lastLogits : String → List ℚ
  softmax : List ℚ → List ℚ
  hiddenStates : String → List (List (List ℚ))
  attentions : String → List (List (List (List ℚ)))
  pcaProj : List (List ℚ) → List (List ℚ)

/-! ### /tokenize -/

/-- The token-cleaning step of the `/tokenize` loop:
`if token.startswith('Ġ'): clean_token = ' ' + token[1:] else: clean_token = token`.
Since the tested prefix is the single character `Ġ`, `startswith` is a check on
the first character and `token[1:]` drops it. -/
def cleanToken (t : String) : String :=
  match t.data with
  | [] => t
  | c :: rest => if c = 'Ġ' then ⟨' ' :: rest⟩ else t

/-- The `/tokenize` display loop translated as-is: walk the raw tokens, clean
each one, and append it only if the cleaned string was not seen before
(`seen_tokens` is the accumulator). -/
def cleanedTokensLoop : List String → List String → List String
  | [], _ => []
  | t :: ts, seen =>
    let c := cleanToken t
    if c ∈ seen then cleanedTokensLoop ts seen
    else c :: cleanedTokensLoop ts (c :: seen)

/-- Spec-side token cleaning, written from the spec's words: the leading
word-boundary marker `Ġ` is rewritten to a literal leading space; tokens with
no such marker are shown as-is. -/
def displayClean (t : String) : String :=
  match t.data with
  | [] => t
  | c :: rest => if c = 'Ġ' then ⟨' ' :: rest⟩ else t

/-- Spec-side deduplication, written from the spec's words: deduplicate by
exact string equality, in first-seen order. -/
def dedupFirstSeen : List String → List String → List String
  | [], _ => []
  | t :: ts, seen =>
    if t ∈ seen then dedupFirstSeen ts seen
    else t :: dedupFirstSeen ts (t :: seen)

/-- Response dict of `/tokenize`.  Note that in the source `input_ids` is
`inputs["input_ids"][0].tolist()` (a flat list) while `attention_mask` is
`inputs["attention_mask"].tolist()` (the whole `[1, n]` tensor, hence a nested
list), so the two fields have different nesting depths. -/
structure TokenizeResponse where
  input_ids : List Nat
  tokens : List String
  attention_mask : List (List Nat)
deriving DecidableEq

/-- The `/tokenize` handler.  The Hugging Face tokenizer, called on a single
unpadded text, returns an attention mask of all 1s of shape `[1, n]`; `.tolist()`
on that tensor yields the singleton nested list `[List.replicate n 1]`. -/
def tokenize_text (osess : Option Session) (exn : Bool) (text : String) :
    TokenizeResponse :=
  match osess with
  | none => ⟨[], [], []⟩
  | some s =>
    if exn then ⟨[], [], []⟩
    else
      let ids := s.encode text
      let rawTokens := ids.map s.idToToken
      { input_ids := ids
        tokens := cleanedTokensLoop rawTokens []
        attention_mask := [List.replicate ids.length 1] }

/-! ### /next_token -/

/-- Python's `str.strip()`: remove leading and trailing whitespace. -/
def pyStrip (s : String) : String :=
  ⟨((s.data.dropWhile Char.isWhitespace).reverse.dropWhile Char.isWhitespace).reverse⟩

/-- The order by which `torch.topk` ranks the `(index, value)` pairs of a
vector: larger values first, ties broken by smaller index first. -/
def topkRel (a b : Nat × ℚ) : Prop :=
  b.2 < a.2 ∨ (a.2 = b.2 ∧ a.1 ≤ b.1)

instance : DecidableRel topkRel := fun a b => by
  unfold topkRel; infer_instance

instance : IsTotal (Nat × ℚ) topkRel where
  total a b := by
    rcases lt_trichotomy a.2 b.2 with h | h | h
    · exact Or.inr (Or.inl h)
    · rcases Nat.le_total a.1 b.1 with h1 | h1
      · exact Or.inl (Or.inr ⟨h, h1⟩)
      · exact Or.inr (Or.inr ⟨h.symm, h1⟩)
    · exact Or.inl (Or.inl h)

instance : IsTrans (Nat × ℚ) topkRel where
  trans a b c hab hbc := by
    rcases hab with h1 | ⟨e1, i1⟩ <;> rcases hbc with h2 | ⟨e2, i2⟩
    · exact Or.inl (h2.trans h1)
    · exact Or.inl (e2 ▸ h1)
    · exact Or.inl (e1 ▸ h2)
    · exact Or.inr ⟨e1.trans e2, i1.trans i2⟩

/-- The `(index, value)` pairs of a vector sorted the way `torch.topk` ranks
them: by value descending, ties by index ascending. -/
def sortedPairs (xs : List ℚ) : List (Nat × ℚ) :=
  xs.enum.insertionSort topkRel

/-- `torch.topk(xs, k)` as `(index, value)` pairs: the `k` top-ranked entries,
values descending.  (The caller must have `k ≤ xs.length`; `torch.topk` raises
otherwise, which the endpoint's `except` handler turns into the failure
payload.) -/
def topk (xs : List ℚ) (k : Nat) : List (Nat × ℚ) :=
  (sortedPairs xs).take k

/-- One `{token, prob, logit}` triple of the `/next_token` `probs` list. -/
structure ProbEntry where
  token : String
  prob : ℚ
  logit : ℚ
deriving DecidableEq

/-- Response dict of `/next_token`.  `token_id` is an integer because the
failure payload uses the sentinel `-1`. -/
structure NextTokenResponse where
  token : String
  token_id : Int
  probability : ℚ
  probs : List ProbEntry
deriving DecidableEq

/-- The fixed failure payload of `/next_token`, returned both when the
model/tokenizer is not loaded and from the `except` handler. -/
def nextTokenFailure : NextTokenResponse :=
  { token := "", token_id := -1, probability := 0, probs := [] }

/-- The `/next_token` handler.  On the success path: softmax the final-position
logits, take the top 10 `(index, value)` pairs, decode each index
(`top_tokens`), read off the probabilities (`top_probs_list`) and the raw
logits at those indices (`top_logits`), zip the three lists into the `probs`
entries (stripping each decoded token), and report the first entry's data at
top level.  If the vocabulary has fewer than 10 entries, `torch.topk(k=10)`
raises and the `except` handler returns the failure payload. -/
def next_token_prediction (osess : Option Session) (exn : Bool) (text : String) :
    NextTokenResponse :=
  match osess with
  | none => nextTokenFailure
  | some s =>
    if exn then nextTokenFailure
    else
      let logits := s.lastLogits text
      let p := s.softmax logits
      if 10 ≤ p.length then
        let tk := topk p 10
        let topTokens := tk.map fun iv => s.decode1 iv.1
        let topProbsList := tk.map fun iv => iv.2
        let topLogits := tk.map fun iv => logits.getD iv.1 0
        let probsList :=
          (topTokens.zip (topProbsList.zip topLogits)).map fun tpl =>
            { token := pyStrip tpl.1, prob := tpl.2.1, logit := tpl.2.2 : ProbEntry }
        { token := pyStrip (topTokens.headD "")
          token_id := ((tk.headD (0, 0)).1 : Int)
          probability := topProbsList.headD 0
          probs := probsList }
      else nextTokenFailure

/-! ### /residual_stream -/

/-- `torch.norm(vec)`: the Euclidean norm of a vector. -/
noncomputable def euclNorm (v : List ℚ) : ℝ :=
  Real.sqrt ((v.map fun x => ((x : ℝ)) ^ 2).sum)

/-- Response dict of `/residual_stream`.  The two constructors record the two
distinct key sets the handler can return: the model-unavailable branch returns
a dict holding only `layer_values`, while the success path and the `except`
handler return all three keys. -/
inductive ResidualResponse where
  | onlyLayerValues (layer_values : List (List ℝ))
  | full (layer_values : List (List ℝ)) (tokens : List String) (num_layers : Nat)

/-- The key set of a `/residual_stream` response dict. -/
def ResidualResponse.keys : ResidualResponse → List String
  | .onlyLayerValues _ => ["layer_values"]
  | .full _ _ _ => ["layer_values", "tokens", "num_layers"]

/-- The `layer_values` field of a `/residual_stream` response. -/
def ResidualResponse.layerValuesOut : ResidualResponse → List (List ℝ)
  | .onlyLayerValues lv => lv
  | .full lv _ _ => lv

/-- The `tokens` field of a `/residual_stream` response (`[]` when the key is
absent). -/
def ResidualResponse.tokensOut : ResidualResponse → List String
  | .onlyLayerValues _ => []
  | .full _ ts _ => ts

/-- The `num_layers` field of a `/residual_stream` response (`0` when the key
is absent). -/
def ResidualResponse.numLayersOut : ResidualResponse → Nat
  | .onlyLayerValues _ => 0
  | .full _ _ n => n

/-- The `/residual_stream` handler.  `num_tokens` is `hidden_states[0].shape[1]`
and `num_layers` is `len(hidden_states)`; the nested loop computes
`torch.norm(hidden_states[layer_idx][0, token_idx])` token-major.  An empty
`hidden_states` tuple would make `hidden_states[0]` raise, landing in the
`except` branch; the model contract keeps every layer at `num_tokens` rows, so
out-of-range layer indexing (which would also raise) is modelled by a default.
The `tokens` field is `tokenizer.convert_ids_to_tokens(inputs["input_ids"][0])`
with no further processing. -/
noncomputable def get_residual_stream (osess : Option Session) (exn : Bool)
    (text : String) : ResidualResponse :=
  match osess with
  | none => .onlyLayerValues []
  | some s =>
    if exn then .full [] [] 0
    else
      match s.hiddenStates text with
      | [] => .full [] [] 0
      | h0 :: rest =>
        let hs := h0 :: rest
        let numTokens := h0.length
        let numLayers := hs.length
        let tokenLayerValues :=
          (List.range numTokens).map fun tokenIdx =>
            (List.range numLayers).map fun layerIdx =>
              euclNorm ((hs.getD layerIdx []).getD tokenIdx [])
        .full tokenLayerValues ((s.encode text).map s.idToToken) numLayers

/-! ### /attention -/

/-- Response dict of `/attention`. -/
structure AttentionResponse where
  num_layers : Nat
  attentions : List (List (List (List ℚ)))
deriving DecidableEq

/-- The `/attention` handler.  `outputs.attentions` is present (the model is
loaded with `output_attentions=True`); `attentions_data` squeezes each layer's
batch dimension, guarded by the truthiness test `if attentions else []`. -/
def get_attention (osess : Option Session) (exn : Bool) (text : String) :
    AttentionResponse :=
  match osess with
  | none => ⟨0, []⟩
  | some s =>
    if exn then ⟨0, []⟩
    else
      let atts := s.attentions text
      let attentionsData := if atts.isEmpty then [] else atts
      ⟨attentionsData.length, attentionsData⟩

/-! ### /embeddings -/

/-- Response dict of `/embeddings`. -/
structure EmbeddingsResponse where
  num_layers : Nat
  hidden_states : List (List (List ℚ))
  embeddings3d : List (List ℚ)
deriving DecidableEq

/-- Modelled from the sklearn contract: `PCA(n_components=3).fit_transform(X)`
raises a `ValueError` unless `3 ≤ min(n_samples, n_features)`, and otherwise
returns one projected row per input row; the projection itself is the solver's
and is abstracted as `proj`.  `none` models the raise. -/
def pcaFitTransform3 (proj : List (List ℚ) → List (List ℚ))
    (m : List (List ℚ)) : Option (List (List ℚ)) :=
  if 3 ≤ m.length ∧ 3 ≤ (m.headD []).length then some (proj m) else none

/-- The `/embeddings` handler.  `hidden_states_data` squeezes each layer,
guarded by the truthiness test; `embeddings3d` is attempted only when
`hidden_states_data` is non-empty and its last layer has at least one row,
and only when `last_hidden.shape[1] >= 3` (the model contract keeps rows
rectangular, so `shape[1]` is the first row's width); a `ValueError` from the
PCA call (fewer than 3 rows) is caught by the inner `except`, which resets
`embeddings3d` to `[]`. -/
def get_embeddings (osess : Option Session) (exn : Bool) (text : String) :
    EmbeddingsResponse :=
  match osess with
  | none => ⟨0, [], []⟩
  | some s =>
    if exn then ⟨0, [], []⟩
    else
      let hs := s.hiddenStates text
      let hiddenStatesData := if hs.isEmpty then [] else hs
      let embeddings3d :=
        if hiddenStatesData.isEmpty then []
        else if (hiddenStatesData.getLastD []).length = 0 then []
        else
          let lastHidden := hiddenStatesData.getLastD []
          if 3 ≤ (lastHidden.headD []).length then
            match pcaFitTransform3 s.pcaProj lastHidden with
            | some r => r
            | none => []
          else []
      ⟨hiddenStatesData.length, hiddenStatesData, embeddings3d⟩

/-! ### A small concrete session

A miniature stand-in for the loaded GPT-2 pair, used to evaluate the handlers
on concrete inputs: two token ids for `"Hello world"` (the second raw token
carrying the `Ġ` word-boundary marker), three hidden-state layers of two
token rows of width four, and twelve vocabulary logits. -/

/-- Concrete session: `encode "Hello world" = [15496, 995]`,
raw tokens `["Hello", "Ġworld"]`, 3 hidden layers × 2 tokens × width 4,
12 logits, identity softmax and identity PCA projection. -/
def demoSession : Session where
  encode := fun _ => [15496, 995]
  idToToken := fun i => if i = 15496 then "Hello" else if i = 995 then "Ġworld" else "<unk>"
  decode1 := fun i => if i = 15496 then "Hello" else if i = 995 then " world" else Nat.repr i
  lastLogits := fun _ => [10, 9, 8, 7, 6, 5, 4, 3, 2, 1, 0, -1]
  softmax := fun l => l
  hiddenStates := fun _ =>
    [[[1, 0, 0, 0], [0, 2, 0, 0]],
     [[3, 4, 0, 0], [0, 0, 0, 0]],
     [[1, 1, 1, 1], [2, 2, 2, 2]]]
  attentions := fun _ => [[[[1, 0], [1/2, 1/2]]]]
  pcaProj := fun m => m

/-! ### Helper lemmas: tokenize -/

/-- The single-pass clean-and-deduplicate loop of the source equals the spec's
two-stage description: clean every token, then deduplicate first-seen. -/
theorem cleanedTokensLoop_eq_dedup (l : List String) (seen : List String) :
    cleanedTokensLoop l seen = dedupFirstSeen (l.map displayClean) seen := by
  induction l generalizing seen with
  | nil => rfl
  | cons t ts ih =>
    show cleanedTokensLoop (t :: ts) seen = dedupFirstSeen (displayClean t :: ts.map displayClean) seen
    rw [cleanedTokensLoop, dedupFirstSeen]
    have hct : cleanToken t = displayClean t := rfl
    by_cases h : displayClean t ∈ seen
    · rw [if_pos (hct ▸ h), if_pos h, ih]
    · rw [if_neg (hct ▸ h), if_neg h, ih, hct]

/-- First-seen deduplication never lengthens a list. -/
theorem dedupFirstSeen_length_le (l : List String) (seen : List String) :
    (dedupFirstSeen l seen).length ≤ l.length := by
  induction l generalizing seen with
  | nil => exact Nat.le_refl 0
  | cons t ts ih =>
    rw [dedupFirstSeen]
    by_cases h : t ∈ seen
    · rw [if_pos h]
      exact Nat.le_succ_of_le (ih seen)
    · rw [if_neg h]
      exact Nat.succ_le_succ (ih (t :: seen))

/-! ### Claim theorems: tokenize -/

/-- C3: for every input text, the `tokens` field of a successful `/tokenize`
response equals the raw token sequence after rewriting each leading `Ġ`
word-boundary marker to a literal leading space and then deduplicating the
cleaned strings by exact string equality in first-seen order; hence
`len(tokens) ≤ len(input_ids)`. -/
theorem tokenize_tokens_cleaned_dedup (s : Session) (text : String) :
    (tokenize_text (some s) false text).tokens =
      dedupFirstSeen (((s.encode text).map s.idToToken).map displayClean) [] ∧
    (tokenize_text (some s) false text).tokens.length ≤
      (tokenize_text (some s) false text).input_ids.length := by
  have htok : (tokenize_text (some s) false text).tokens
      = cleanedTokensLoop ((s.encode text).map s.idToToken) [] := rfl
  have hids : (tokenize_text (some s) false text).input_ids = s.encode text := rfl
  constructor
  · rw [htok, cleanedTokensLoop_eq_dedup]
  · rw [htok, hids, cleanedTokensLoop_eq_dedup]
    calc (dedupFirstSeen (((s.encode text).map s.idToToken).map displayClean) []).length
        ≤ (((s.encode text).map s.idToToken).map displayClean).length :=
          dedupFirstSeen_length_le _ _
      _ = (s.encode text).length := by rw [List.length_map, List.length_map]

/-- C2 is refuted by the code: on a two-token input the response's
`attention_mask` is the nested singleton `[[1, 1]]` (length 1), because the
source applies `.tolist()` to the whole `[1, n]` mask tensor without the `[0]`
batch indexing it applies to `input_ids`; so
`len(input_ids) = 2 ≠ 1 = len(attention_mask)` and the elements of
`attention_mask` are lists, not the number 1. -/
theorem tokenize_mask_nesting_mismatch :
    (tokenize_text (some demoSession) false "Hello world").input_ids = [15496, 995] ∧
    (tokenize_text (some demoSession) false "Hello world").attention_mask = [[1, 1]] ∧
    (tokenize_text (some demoSession) false "Hello world").input_ids.length = 2 ∧
    (tokenize_text (some demoSession) false "Hello world").attention_mask.length = 1 :=
  ⟨by decide, by decide, by decide, by decide⟩

/-! ### Claim theorems: failure payloads and key sets -/

/-- C1 is refuted by the code: when the model/tokenizer is unavailable the
`/residual_stream` handler returns a dict holding only the `layer_values` key,
omitting `tokens` and `num_layers`, whereas the per-request `except` branch
(and the success path) return all three keys — so the key set is not the same
across failure modes. -/
theorem residual_unavailable_omits_keys :
    (get_residual_stream none false "Hello world").keys = ["layer_values"] ∧
    (get_residual_stream (some demoSession) true "Hello world").keys =
      ["layer_values", "tokens", "num_layers"] ∧
    (get_residual_stream none false "Hello world").keys ≠
      ["layer_values", "tokens", "num_layers"] :=
  ⟨rfl, rfl, by decide⟩

/-- C6: whenever the model/tokenizer is unavailable, or any exception occurs
during `/next_token` handling, the response is exactly
`token="", token_id=-1, probability=0.0, probs=[]`. -/
theorem next_token_failure_shape (s : Session) (exn : Bool) (text : String) :
    next_token_prediction none exn text = nextTokenFailure ∧
    next_token_prediction (some s) true text = nextTokenFailure ∧
    nextTokenFailure =
      { token := "", token_id := -1, probability := 0, probs := [] } :=
  ⟨rfl, rfl, rfl⟩

/-- C9: the `/attention` response satisfies `num_layers = len(attentions)` for
every input and session state, and on unavailability or a per-request
exception it is exactly `num_layers=0, attentions=[]`. -/
theorem attention_layer_count_consistent (osess : Option Session) (exn : Bool)
    (s : Session) (text : String) :
    (get_attention osess exn text).num_layers =
      (get_attention osess exn text).attentions.length ∧
    get_attention none exn text = ⟨0, []⟩ ∧
    get_attention (some s) true text = ⟨0, []⟩ := by
  refine ⟨?_, rfl, rfl⟩
  cases osess with
  | none => rfl
  | some s' =>
    cases exn with
    | false => rfl
    | true => rfl

/-! ### Claim theorems: residual stream tokens -/

/-- C4 is refuted by the code: the `tokens` field of a successful
`/residual_stream` response is the raw `convert_ids_to_tokens` output, with the
`Ġ` word-boundary marker left in place — on `"Hello world"` the second
returned token is `"Ġworld"`, not the display form `" world"`. -/
theorem residual_tokens_uncleaned_cex :
    (get_residual_stream (some demoSession) false "Hello world").tokensOut =
      ["Hello", "Ġworld"] ∧
    (get_residual_stream (some demoSession) false "Hello world").tokensOut.map
        displayClean = ["Hello", " world"] ∧
    (get_residual_stream (some demoSession) false "Hello world").tokensOut ≠
      (get_residual_stream (some demoSession) false "Hello world").tokensOut.map
        displayClean :=
  ⟨rfl, by decide, by decide⟩

/-- C4 amended: for every input text, the `tokens` field of a successful
`/residual_stream` response is the raw token sequence
`convert_ids_to_tokens(input_ids)`, with no word-boundary rewriting and no
deduplication. -/
theorem residual_tokens_raw (s : Session) (text : String)
    (h0 : List (List ℚ)) (rest : List (List (List ℚ)))
    (hh : s.hiddenStates text = h0 :: rest) :
    (get_residual_stream (some s) false text).tokensOut =
      (s.encode text).map s.idToToken := by
  simp only [get_residual_stream, Bool.false_eq_true, if_false]
  rw [hh]
  rfl

/-- Witness for `residual_tokens_raw` at the concrete session. -/
theorem residual_tokens_raw_witness :
    demoSession.hiddenStates "Hello world" =
      [[1, 0, 0, 0], [0, 2, 0, 0]] ::
        [[[3, 4, 0, 0], [0, 0, 0, 0]], [[1, 1, 1, 1], [2, 2, 2, 2]]] ∧
    (get_residual_stream (some demoSession) false "Hello world").tokensOut =
      (demoSession.encode "Hello world").map demoSession.idToToken :=
  ⟨rfl, residual_tokens_raw demoSession "Hello world" _ _ rfl⟩

/-! ### Helper lemmas: residual stream success path -/

/-- Reduction of the `/residual_stream` handler on its success path. -/
theorem get_residual_stream_success (s : Session) (text : String)
    (h0 : List (List ℚ)) (rest : List (List (List ℚ)))
    (hh : s.hiddenStates text = h0 :: rest) :
    get_residual_stream (some s) false text =
      .full ((List.range h0.length).map fun tokenIdx =>
               (List.range (h0 :: rest).length).map fun layerIdx =>
                 euclNorm (((h0 :: rest).getD layerIdx []).getD tokenIdx []))
        ((s.encode text).map s.idToToken) (h0 :: rest).length := by
  simp only [get_residual_stream, Bool.false_eq_true, if_false]
  rw [hh]

/-- Indexing a map over `List.range`. -/
theorem getD_map_range {β : Type} (n t : Nat) (f : Nat → β) (d : β) (ht : t < n) :
    ((List.range n).map f).getD t d = f t := by
  rw [List.getD_eq_getElem?_getD, List.getElem?_map, List.getElem?_range ht]
  rfl

/-! ### Claim theorems: residual stream shape -/

/-- C7: a successful `/residual_stream` response has one `layer_values` row per
input token; every row has `num_layers` entries (one per hidden-state layer,
embedding layer included); the entry of token `t` at layer `l` is the Euclidean
norm of that token's hidden vector at that layer; and every entry is
non-negative. -/
theorem residual_stream_shape (s : Session) (text : String)
    (h0 : List (List ℚ)) (rest : List (List (List ℚ)))
    (hh : s.hiddenStates text = h0 :: rest)
    (_hrect : ∀ layer ∈ h0 :: rest, layer.length = h0.length)
    (htok : h0.length = (s.encode text).length) :
    (get_residual_stream (some s) false text).layerValuesOut.length =
      (s.encode text).length ∧
    (∀ row ∈ (get_residual_stream (some s) false text).layerValuesOut,
      row.length = (get_residual_stream (some s) false text).numLayersOut) ∧
    (get_residual_stream (some s) false text).numLayersOut =
      (s.hiddenStates text).length ∧
    (∀ t, t < (s.encode text).length → ∀ l, l < (s.hiddenStates text).length →
      ((get_residual_stream (some s) false text).layerValuesOut.getD t []).getD l 0 =
        euclNorm (((s.hiddenStates text).getD l []).getD t [])) ∧
    (∀ row ∈ (get_residual_stream (some s) false text).layerValuesOut,
      ∀ x ∈ row, 0 ≤ x) := by
  rw [get_residual_stream_success s text h0 rest hh]
  refine ⟨?_, ?_, ?_, ?_, ?_⟩
  · simp [ResidualResponse.layerValuesOut, htok]
  · intro row hrow
    rcases List.mem_map.mp hrow with ⟨tokenIdx, _, hrow'⟩
    rw [← hrow']
    simp [ResidualResponse.numLayersOut]
  · rw [hh]
    rfl
  · intro t ht l hl
    rw [hh] at hl ⊢
    have ht' : t < h0.length := htok ▸ ht
    show (((List.range h0.length).map fun tokenIdx =>
        (List.range (h0 :: rest).length).map fun layerIdx =>
          euclNorm (((h0 :: rest).getD layerIdx []).getD tokenIdx [])).getD t []).getD l 0 =
      euclNorm (((h0 :: rest).getD l []).getD t [])
    rw [getD_map_range h0.length t _ [] ht', getD_map_range (h0 :: rest).length l _ 0 hl]
  · intro row hrow x hx
    rcases List.mem_map.mp hrow with ⟨tokenIdx, _, hrow'⟩
    rw [← hrow'] at hx
    rcases List.mem_map.mp hx with ⟨layerIdx, _, hx'⟩
    rw [← hx']
    exact Real.sqrt_nonneg _

/-- Witness for `residual_stream_shape` at the concrete session. -/
theorem residual_stream_shape_witness :
    (∀ layer ∈ (([[1, 0, 0, 0], [0, 2, 0, 0]] : List (List ℚ)) ::
        [[[3, 4, 0, 0], [0, 0, 0, 0]], [[1, 1, 1, 1], [2, 2, 2, 2]]]),
      layer.length = ([[1, 0, 0, 0], [0, 2, 0, 0]] : List (List ℚ)).length) ∧
    (2 : Nat) = (demoSession.encode "Hello world").length ∧
    (get_residual_stream (some demoSession) false "Hello world").layerValuesOut.length =
      (demoSession.encode "Hello world").length :=
  ⟨by decide, by decide,
    (residual_stream_shape demoSession "Hello world" _ _ rfl (by decide) (by decide)).1⟩

/-! ### Helper lemmas: embeddings -/

/-- Reduction of the `hidden_states` and `embeddings3d` fields of a successful
`/embeddings` response when the model produced at least one hidden-state
layer. -/
theorem get_embeddings_fields (s : Session) (text : String)
    (hie : (s.hiddenStates text).isEmpty = false) :
    (get_embeddings (some s) false text).hidden_states = s.hiddenStates text ∧
    (get_embeddings (some s) false text).embeddings3d =
      (if ((s.hiddenStates text).getLastD []).length = 0 then []
       else if 3 ≤ (((s.hiddenStates text).getLastD []).headD []).length then
         (match pcaFitTransform3 s.pcaProj ((s.hiddenStates text).getLastD []) with
          | some r => r
          | none => [])
       else []) := by
  constructor
  · simp only [get_embeddings, hie, Bool.false_eq_true, if_false]
  · simp only [get_embeddings, hie, Bool.false_eq_true, if_false]

/-! ### Claim theorems: embeddings -/

/-- C8: when the input has fewer than 3 tokens or the hidden width is below 3,
a successful `/embeddings` response has `embeddings3d = []` while
`hidden_states` is still the full, non-empty per-layer data; conversely the PCA
projection is populated only when the token count and the hidden width are both
at least 3. -/
theorem embeddings_pca_gate (s : Session) (text : String)
    (hne : s.hiddenStates text ≠ [])
    (hrows : ((s.hiddenStates text).getLastD []).length = (s.encode text).length) :
    (get_embeddings (some s) false text).hidden_states = s.hiddenStates text ∧
    (get_embeddings (some s) false text).hidden_states ≠ [] ∧
    ((s.encode text).length < 3 ∨
        (((s.hiddenStates text).getLastD []).headD []).length < 3 →
      (get_embeddings (some s) false text).embeddings3d = []) ∧
    ((get_embeddings (some s) false text).embeddings3d ≠ [] →
      3 ≤ (s.encode text).length ∧
        3 ≤ (((s.hiddenStates text).getLastD []).headD []).length) := by
  have hie : (s.hiddenStates text).isEmpty = false := by
    simpa using hne
  obtain ⟨hhs, he3⟩ := get_embeddings_fields s text hie
  refine ⟨hhs, hhs ▸ hne, ?_, ?_⟩
  · intro h
    rw [he3]
    by_cases hz : ((s.hiddenStates text).getLastD []).length = 0
    · rw [if_pos hz]
    · rw [if_neg hz]
      by_cases hw : 3 ≤ (((s.hiddenStates text).getLastD []).headD []).length
      · rw [if_pos hw]
        rcases h with h | h
        · have hcond : ¬ (3 ≤ ((s.hiddenStates text).getLastD []).length ∧
              3 ≤ (((s.hiddenStates text).getLastD []).headD []).length) := by
            intro hc
            rw [hrows] at hc
            omega
          rw [pcaFitTransform3, if_neg hcond]
        · omega
      · rw [if_neg hw]
  · intro hne3
    rw [he3] at hne3
    by_cases hz : ((s.hiddenStates text).getLastD []).length = 0
    · rw [if_pos hz] at hne3
      exact absurd rfl hne3
    · rw [if_neg hz] at hne3
      by_cases hw : 3 ≤ (((s.hiddenStates text).getLastD []).headD []).length
      · rw [if_pos hw] at hne3
        by_cases hcond : 3 ≤ ((s.hiddenStates text).getLastD []).length ∧
            3 ≤ (((s.hiddenStates text).getLastD []).headD []).length
        · exact ⟨hrows ▸ hcond.1, hcond.2⟩
        · rw [pcaFitTransform3, if_neg hcond] at hne3
          exact absurd rfl hne3
      · rw [if_neg hw] at hne3
        exact absurd rfl hne3

/-- Witness for `embeddings_pca_gate` at the concrete session: two tokens,
hidden width four, so the projection is empty while `hidden_states` is not. -/
theorem embeddings_pca_gate_witness :
    demoSession.hiddenStates "Hello world" ≠ [] ∧
    ((demoSession.hiddenStates "Hello world").getLastD []).length =
      (demoSession.encode "Hello world").length ∧
    (demoSession.encode "Hello world").length < 3 ∧
    (get_embeddings (some demoSession) false "Hello world").embeddings3d = [] :=
  ⟨by decide, by decide, by decide,
    (embeddings_pca_gate demoSession "Hello world" (by decide) (by decide)).2.2.1
      (Or.inl (by decide))⟩

/-! ### Helper lemmas: topk -/

/-- A higher-ranked pair has the larger (or equal) value. -/
theorem topkRel_le {a b : Nat × ℚ} (h : topkRel a b) : b.2 ≤ a.2 := by
  rcases h with h | ⟨h, _⟩
  · exact le_of_lt h
  · exact le_of_eq h.symm

/-- Ranking the pairs of a vector keeps their number. -/
theorem sortedPairs_length (xs : List ℚ) : (sortedPairs xs).length = xs.length := by
  rw [sortedPairs, List.length_insertionSort, List.enum_length]

/-- The ranked pair list is sorted by the ranking order. -/
theorem sortedPairs_sorted (xs : List ℚ) : List.Sorted topkRel (sortedPairs xs) :=
  List.sorted_insertionSort topkRel xs.enum

/-- Every ranked pair is an actual `(index, value)` entry of the vector. -/
theorem sortedPairs_mem_getElem? {xs : List ℚ} {iv : Nat × ℚ}
    (h : iv ∈ sortedPairs xs) : xs[iv.1]? = some iv.2 := by
  have h' : iv ∈ xs.enum := (List.mem_insertionSort topkRel).mp h
  exact List.mk_mem_enum_iff_getElem?.mp h'

/-- The indices of the ranked pair list are pairwise distinct. -/
theorem sortedPairs_map_fst_nodup (xs : List ℚ) :
    ((sortedPairs xs).map Prod.fst).Nodup := by
  have hperm : (sortedPairs xs).Perm xs.enum := List.perm_insertionSort topkRel xs.enum
  have hperm' : ((sortedPairs xs).map Prod.fst).Perm (xs.enum.map Prod.fst) :=
    hperm.map Prod.fst
  rw [hperm'.nodup_iff, List.enum_map_fst]
  exact List.nodup_range xs.length

/-- `topk` returns exactly `k` pairs when the vector is long enough. -/
theorem topk_length {xs : List ℚ} {k : Nat} (h : k ≤ xs.length) :
    (topk xs k).length = k := by
  rw [topk, List.length_take, sortedPairs_length]
  exact Nat.min_eq_left h

/-- The `topk` pairs are pairwise ranked, hence value-descending. -/
theorem topk_pairwise (xs : List ℚ) (k : Nat) : (topk xs k).Pairwise topkRel :=
  List.Pairwise.sublist (List.take_sublist k (sortedPairs xs)) (sortedPairs_sorted xs)

/-- Every `topk` pair is an actual `(index, value)` entry of the vector. -/
theorem topk_mem_getElem? {xs : List ℚ} {k : Nat} {iv : Nat × ℚ}
    (h : iv ∈ topk xs k) : xs[iv.1]? = some iv.2 :=
  sortedPairs_mem_getElem? ((List.take_sublist k (sortedPairs xs)).mem h)

/-- The `topk` indices are pairwise distinct. -/
theorem topk_ids_nodup (xs : List ℚ) (k : Nat) :
    ((topk xs k).map Prod.fst).Nodup := by
  rw [topk, List.map_take]
  exact List.Nodup.sublist (List.take_sublist k _) (sortedPairs_map_fst_nodup xs)

/-- A vector entry whose index was not selected by `topk` is bounded by every
selected value: the selected `k` are the top `k`. -/
theorem topk_top {xs : List ℚ} {k j : Nat} (hj : j < xs.length)
    (hnot : j ∉ (topk xs k).map Prod.fst) {iv : Nat × ℚ} (hiv : iv ∈ topk xs k) :
    xs.getD j 0 ≤ iv.2 := by
  have hjel : xs[j]? = some xs[j] := List.getElem?_eq_getElem hj
  have hpair : ((j, xs[j]) : Nat × ℚ) ∈ sortedPairs xs := by
    rw [sortedPairs, List.mem_insertionSort]
    exact List.mk_mem_enum_iff_getElem?.mpr hjel
  have hsplit : topk xs k ++ (sortedPairs xs).drop k = sortedPairs xs :=
    List.take_append_drop k (sortedPairs xs)
  have hpw : (topk xs k ++ (sortedPairs xs).drop k).Pairwise topkRel := by
    rw [hsplit]
    exact sortedPairs_sorted xs
  have hdrop : ((j, xs[j]) : Nat × ℚ) ∈ (sortedPairs xs).drop k := by
    rcases (List.mem_append.mp (hsplit ▸ hpair)) with hin | hin
    · exact absurd (List.mem_map.mpr ⟨(j, xs[j]), hin, rfl⟩) hnot
    · exact hin
  have hrel : topkRel iv (j, xs[j]) :=
    (List.pairwise_append.mp hpw).2.2 iv hiv _ hdrop
  have : xs.getD j 0 = xs[j] := by
    rw [List.getD_eq_getElem?_getD, hjel]
    rfl
  rw [this]
  exact topkRel_le hrel

/-- Zipping the three parallel per-pair lists and shaping each triple is the
same as shaping each pair directly (the source builds `probs_list` with
`zip(top_tokens, top_probs_list, top_logits)`). -/
theorem zip3_map_entries (l : List (Nat × ℚ)) (f1 : Nat × ℚ → String)
    (f2 : Nat × ℚ → ℚ) (f3 : Nat × ℚ → ℚ) :
    ((l.map f1).zip ((l.map f2).zip (l.map f3))).map
        (fun tpl => ProbEntry.mk (pyStrip tpl.1) tpl.2.1 tpl.2.2) =
      l.map fun iv => ProbEntry.mk (pyStrip (f1 iv)) (f2 iv) (f3 iv) := by
  induction l with
  | nil => rfl
  | cons a l ih =>
    simp only [List.map_cons, List.zip_cons_cons, ih]

/-- Reduction of the `/next_token` handler on its success path. -/
theorem next_token_prediction_success (s : Session) (text : String)
    (hV : 10 ≤ (s.softmax (s.lastLogits text)).length) :
    next_token_prediction (some s) false text =
      { token := pyStrip (((topk (s.softmax (s.lastLogits text)) 10).map fun iv =>
            s.decode1 iv.1).headD "")
        token_id := (((topk (s.softmax (s.lastLogits text)) 10).headD (0, 0)).1 : Int)
        probability := ((topk (s.softmax (s.lastLogits text)) 10).map fun iv =>
            iv.2).headD 0
        probs := (topk (s.softmax (s.lastLogits text)) 10).map fun iv =>
          { token := pyStrip (s.decode1 iv.1), prob := iv.2,
            logit := (s.lastLogits text).getD iv.1 0 } } := by
  simp only [next_token_prediction, if_pos hV, Bool.false_eq_true, if_false]
  rw [zip3_map_entries]

/-! ### Claim theorems: next token -/

/-- C5: a successful `/next_token` response (vocabulary of size at least 10)
has exactly 10 entries in `probs`, ordered by descending `prob`; there is a
duplicate-free list of 10 vocabulary ids such that entry `j` carries the
softmax probability and the untransformed logit of id `j`, and every
unselected id's probability is below every entry's — the entries are the
softmax values restricted to the top-10 ids. -/
theorem next_token_top10 (s : Session) (text : String)
    (hlen : (s.softmax (s.lastLogits text)).length = (s.lastLogits text).length)
    (hV : 10 ≤ (s.softmax (s.lastLogits text)).length) :
    (next_token_prediction (some s) false text).probs.length = 10 ∧
    List.Chain' (fun a b => b.prob ≤ a.prob)
      (next_token_prediction (some s) false text).probs ∧
    ∃ ids : List Nat,
      ids.length = 10 ∧ ids.Nodup ∧
      (∀ i ∈ ids, i < (s.softmax (s.lastLogits text)).length ∧
        i < (s.lastLogits text).length) ∧
      (next_token_prediction (some s) false text).probs =
        ids.map (fun i =>
          { token := pyStrip (s.decode1 i)
            prob := (s.softmax (s.lastLogits text)).getD i 0
            logit := (s.lastLogits text).getD i 0 : ProbEntry }) ∧
      (∀ j, j < (s.softmax (s.lastLogits text)).length → j ∉ ids →
        ∀ e ∈ (next_token_prediction (some s) false text).probs,
          (s.softmax (s.lastLogits text)).getD j 0 ≤ e.prob) := by
  rw [next_token_prediction_success s text hV]
  set p := s.softmax (s.lastLogits text) with hp
  refine ⟨?_, ?_, ?_⟩
  · rw [List.length_map, topk_length hV]
  · apply List.Pairwise.chain'
    apply List.pairwise_map.mpr
    apply (topk_pairwise p 10).imp
    intro a b hab
    exact topkRel_le hab
  · refine ⟨(topk p 10).map Prod.fst, ?_, topk_ids_nodup p 10, ?_, ?_, ?_⟩
    · rw [List.length_map, topk_length hV]
    · intro i hi
      rcases List.mem_map.mp hi with ⟨iv, hiv, hfst⟩
      have := topk_mem_getElem? hiv
      have hlt : iv.1 < p.length := by
        rcases List.getElem?_eq_some_iff.mp this with ⟨h, _⟩
        exact h
      rw [← hfst]
      exact ⟨hlt, hlen ▸ hlt⟩
    · rw [List.map_map]
      apply List.map_congr_left
      intro iv hiv
      have hget := topk_mem_getElem? hiv
      have : p.getD iv.1 0 = iv.2 := by
        rw [List.getD_eq_getElem?_getD, hget]
        rfl
      show ProbEntry.mk (pyStrip (s.decode1 iv.1)) iv.2 ((s.lastLogits text).getD iv.1 0) =
        ProbEntry.mk (pyStrip (s.decode1 iv.1)) (p.getD iv.1 0) ((s.lastLogits text).getD iv.1 0)
      rw [this]
    · intro j hj hnot e he
      rcases List.mem_map.mp he with ⟨iv, hiv, hE⟩
      have hnot' : j ∉ (topk p 10).map Prod.fst := hnot
      have := topk_top hj hnot' hiv
      rw [← hE]
      exact this

/-- Witness for `next_token_top10` at the concrete session (12 logits). -/
theorem next_token_top10_witness :
    (demoSession.softmax (demoSession.lastLogits "Hello world")).length =
      (demoSession.lastLogits "Hello world").length ∧
    10 ≤ (demoSession.softmax (demoSession.lastLogits "Hello world")).length ∧
    (next_token_prediction (some demoSession) false "Hello world").probs.length = 10 :=
  ⟨by decide, by decide,
    (next_token_top10 demoSession "Hello world" (by decide) (by decide)).1⟩

/-- C10: in a successful `/next_token` response, `token` and `probability`
agree with the head of `probs`, `probability` is the maximum over all returned
entries, and `token_id` is the vocabulary id whose probability attains that
maximum. -/
theorem next_token_top_entry (s : Session) (text : String)
    (hV : 10 ≤ (s.softmax (s.lastLogits text)).length) :
    (next_token_prediction (some s) false text).token =
      ((next_token_prediction (some s) false text).probs.headD ⟨"", 0, 0⟩).token ∧
    (next_token_prediction (some s) false text).probability =
      ((next_token_prediction (some s) false text).probs.headD ⟨"", 0, 0⟩).prob ∧
    (∀ e ∈ (next_token_prediction (some s) false text).probs,
      e.prob ≤ (next_token_prediction (some s) false text).probability) ∧
    0 ≤ (next_token_prediction (some s) false text).token_id ∧
    (next_token_prediction (some s) false text).token_id.toNat <
      (s.softmax (s.lastLogits text)).length ∧
    (s.softmax (s.lastLogits text)).getD
        (next_token_prediction (some s) false text).token_id.toNat 0 =
      (next_token_prediction (some s) false text).probability := by
  rw [next_token_prediction_success s text hV]
  set p := s.softmax (s.lastLogits text) with hp
  have hlen10 : (topk p 10).length = 10 := topk_length hV
  obtain ⟨a, rest, htk⟩ : ∃ a rest, topk p 10 = a :: rest := by
    cases h : topk p 10 with
    | nil => rw [h] at hlen10; exact absurd hlen10 (by decide)
    | cons a rest => exact ⟨a, rest, rfl⟩
  have hamem : a ∈ topk p 10 := by
    rw [htk]
    exact List.mem_cons_self a rest
  have haget : p[a.1]? = some a.2 := topk_mem_getElem? hamem
  have halt : a.1 < p.length := by
    rcases List.getElem?_eq_some_iff.mp haget with ⟨h, _⟩
    exact h
  have hagetD : p.getD a.1 0 = a.2 := by
    rw [List.getD_eq_getElem?_getD, haget]
    rfl
  rw [htk]
  refine ⟨rfl, rfl, ?_, ?_, ?_, ?_⟩
  · intro e he
    rcases List.mem_map.mp he with ⟨iv, hiv, hE⟩
    rw [← hE]
    show iv.2 ≤ ((a :: rest).map fun iv => iv.2).headD 0
    have hpw : (a :: rest).Pairwise topkRel := htk ▸ topk_pairwise p 10
    rcases List.mem_cons.mp hiv with h | h
    · rw [h]
      rfl
    · have := (List.pairwise_cons.mp hpw).1 iv h
      exact topkRel_le this
  · exact Int.ofNat_nonneg a.1
  · show ((a.1 : Int)).toNat < p.length
    rw [Int.toNat_ofNat]
    exact halt
  · show p.getD ((a.1 : Int)).toNat 0 = ((a :: rest).map fun iv => iv.2).headD 0
    rw [Int.toNat_ofNat, hagetD]
    rfl

/-- Witness for `next_token_top_entry` at the concrete session. -/
theorem next_token_top_entry_witness :
    10 ≤ (demoSession.softmax (demoSession.lastLogits "Hello world")).length ∧
    (next_token_prediction (some demoSession) false "Hello world").token =
      ((next_token_prediction (some demoSession) false "Hello world").probs.headD
        ⟨"", 0, 0⟩).token :=
  ⟨by decide, (next_token_top_entry demoSession "Hello world" (by decide)).1⟩
